import Mathlib

/-!
Verification of the contract-verification flow of the explorer backend
(`server/backend/backend.go`).

The development shallowly embeds the two operations with real logic:

* `VerifyContract` (backend.go, lines 107-155): look up the stored contract
  record by address, reject if already verified, compile the submitted
  source, locate the compilation unit keyed by `"<stdin>:" ++ contractName`,
  canonicalize both the freshly compiled runtime bytecode (dropping the
  first two characters, the `0x` prefix) and the stored bytecode by
  removing the trailing metadata-hash pattern matched by the Go regexp
  `00a165627a7a72305820.*0029$`, compare, and persist on success.
* `GetCompilerVersion` (backend.go, lines 157-166): query the external
  compiler's version and extract the semantic version by the Go regexp
  `([0-9]+)\.([0-9]+)\.([0-9]+)\+commit\.[^.]*`, indexing the match result
  without a nil check.

External collaborators (the mongo-backed store, the solc compiler binary,
the clock) are modelled as an explicit environment of pure functions.
Strings are modelled as their character lists; the bytecode strings in
scope are ASCII hex, for which Go's byte indexing and character indexing
coincide.  Go runtime panics (out-of-range slicing, indexing a nil slice)
are modelled by an explicit `panic` outcome constructor.
-/

namespace Explorer

/-- A stored contract record (`models.Contract`), restricted to the fields
read or written by `VerifyContract`: `Address`, `Bytecode`, `Valid`,
`Optimization`, `ContractName`, `SourceCode`, `CompilerVersion`,
`UpdatedAt`.  The caller-submitted `contractData` is a value of the same
type, of which only `Address`, `ContractName` and `SourceCode` are read. -/
structure Contract where
  address : String
  bytecode : String
  valid : Bool
  optimization : Bool
  contractName : String
  sourceCode : String
  compilerVersion : String
  updatedAt : Nat
deriving DecidableEq

/-- Compiler metadata echoed per compilation unit (`compiler.ContractInfo`):
the fields `Info.Source` and `Info.CompilerVersion` read by the flow. -/
structure ContractInfo where
  source : String
  compilerVersion : String
deriving DecidableEq

/-- One compilation unit of the compiler output map (`compiler.Contract`):
the runtime bytecode (hex string carrying a `0x` prefix) and its info. -/
structure CompilationUnit where
  runtimeCode : String
  info : ContractInfo
deriving DecidableEq

/-- The error outcomes of `VerifyContract`, one per `errors.New` site in
the source. -/
inductive VerifyError where
  | notFound
  | alreadyVerified
  | compilationFailed
  | unknownContractName
  | emptyBytecode
  | persistenceFailed
  | bytecodeMismatch (address : String)
deriving DecidableEq

/-- The message carried by each error, exactly the `errors.New` string of
the corresponding site in `VerifyContract`. -/
def VerifyError.message : VerifyError → String
  | .notFound => "contract with given address not found"
  | .alreadyVerified => "contract with given address is already verified"
  | .compilationFailed => "error occurred while compiling source code"
  | .unknownContractName => "invalid contract name"
  | .emptyBytecode => "contract binary is empty"
  | .persistenceFailed => "error occurred while processing data"
  | .bytecodeMismatch a =>
      "the compiled result does not match the input creation bytecode located at " ++ a

/-- The outcome of a `VerifyContract` call: a Go runtime panic, an error
return, or the successfully updated record. -/
inductive VerifyResult where
  | panic
  | err (e : VerifyError)
  | ok (c : Contract)
deriving DecidableEq

/-- The external collaborators of the flow:
`store` models `Backend.GetContract` (hex normalization plus the mongo
lookup, both outside the verification logic) keyed by the submitted
address; `compile` models `compiler.CompileSolidityString("solc", ·)`,
returning the compiler output as an association list keyed by unit name;
`update` models `mongo.updateContract`, reporting whether the store
accepted the write; `now` models `time.Now()`. -/
structure VerifyEnv where
  store : String → Option Contract
  compile : String → Except Unit (List (String × CompilationUnit))
  update : Contract → Bool
  now : Nat

/-- The characters of the literal marker of the metadata-hash regexp
`00a165627a7a72305820.*0029$`. -/
def metaMarker : List Char := "00a165627a7a72305820".data

/-- The characters of the trailing literal `0029` of the metadata-hash
regexp, anchored at end of text by `$`. -/
def metaTail : List Char := "0029".data

/-- Decides whether the Go regexp `00a165627a7a72305820.*0029$` matches at
the start of `s` (with the end-of-text anchor referring to the end of
`s`): the first 20 characters are the marker, the last 4 characters are
`0029`, the two do not overlap, and the characters in between are all
matched by `.`, which in a Go regexp is any character except newline. -/
def hasMetaMatch (s : List Char) : Bool :=
  decide (24 ≤ s.length) && decide (s.take 20 = metaMarker)
    && decide (s.drop (s.length - 4) = metaTail)
    && ((s.drop 20).take (s.length - 24)).all (fun c => c != '\n')

/-- The canonicalization regexp replacement
`reg.ReplaceAllString(s, "")` for `reg = 00a165627a7a72305820.*0029$`:
because every match extends to the end of the text, there is at most one
match, beginning at the leftmost position where the pattern matches, and
replacing it with the empty string truncates the string there.  Strings
without a match are returned unchanged. -/
def stripMetadataHash : List Char → List Char
  | [] => []
  | c :: cs => if hasMetaMatch (c :: cs) then [] else c :: stripMetadataHash cs

/-- The record mutation performed on the success path of `VerifyContract`:
all six fields assigned together before the single `updateContract` call. -/
def verifiedUpdate (contract contractData : Contract) (cu : CompilationUnit)
    (now : Nat) : Contract :=
  { contract with
    valid := true
    optimization := true
    contractName := contractData.contractName
    sourceCode := cu.info.source
    compilerVersion := cu.info.compilerVersion
    updatedAt := now }

/-- Shallow embedding of `Backend.VerifyContract` (backend.go, lines
107-155).  The second component of the result collects the arguments of
the `updateContract` calls made during the run (the source has a single
call site, on the success path).  The slice `RuntimeCode[2:]` panics in Go
when the string is shorter than two bytes; the empty string is rejected
just before, so the panic case is exactly length one. -/
def VerifyContract (env : VerifyEnv) (contractData : Contract) :
    VerifyResult × List Contract :=
  match env.store contractData.address with
  | none => (.err .notFound, [])
  | some contract =>
    if contract.valid then (.err .alreadyVerified, [])
    else
      match env.compile contractData.sourceCode with
      | .error _ => (.err .compilationFailed, [])
      | .ok compileData =>
        match compileData.lookup ("<stdin>:" ++ contractData.contractName) with
        | none => (.err .unknownContractName, [])
        | some cu =>
          if cu.runtimeCode = "" then (.err .emptyBytecode, [])
          else if cu.runtimeCode.data.length < 2 then (.panic, [])
          else
            let sourceBin := stripMetadataHash (cu.runtimeCode.data.drop 2)
            let contractBin := stripMetadataHash contract.bytecode.data
            if sourceBin = contractBin then
              let updated := verifiedUpdate contract contractData cu env.now
              if env.update updated then (.ok updated, [updated])
              else (.err .persistenceFailed, [updated])
            else (.err (.bytecodeMismatch contractData.address), [])

/-- The result of `compiler.SolidityVersion("solc")`: the flow reads only
the `FullVersion` field. -/
structure SolidityVersionInfo where
  fullVersion : String
deriving DecidableEq

/-- The outcome of a `GetCompilerVersion` call: a Go runtime panic, an
error return, or the extracted version string. -/
inductive VersionResult where
  | panic
  | err (msg : String)
  | ok (version : String)
deriving DecidableEq

/-- Attempts to match the Go regexp
`([0-9]+)\.([0-9]+)\.([0-9]+)\+commit\.[^.]*` at the start of `s`,
returning the full matched text (submatch 0).  Each `[0-9]+` is greedy and
is followed by a character no digit can equal, so greedy matching never
backtracks; the final `[^.]*` (any character except `.`, newline included
in a negated class) greedily extends to the next dot or the end. -/
def matchVersionAt (s : List Char) : Option (List Char) :=
  let d1 := s.takeWhile Char.isDigit
  if d1.isEmpty then none else
  match s.dropWhile Char.isDigit with
  | '.' :: r2 =>
    let d2 := r2.takeWhile Char.isDigit
    if d2.isEmpty then none else
    match r2.dropWhile Char.isDigit with
    | '.' :: r4 =>
      let d3 := r4.takeWhile Char.isDigit
      if d3.isEmpty then none else
      match r4.dropWhile Char.isDigit with
      | '+' :: r6 =>
        if "commit.".data.isPrefixOf r6 then
          some (d1 ++ '.' :: d2 ++ '.' :: d3 ++ '+' :: "commit.".data
            ++ (r6.drop 7).takeWhile (fun c => c != '.'))
        else none
      | _ => none
    | _ => none
  | _ => none

/-- Models `versionRegexp.FindStringSubmatch`: the leftmost match of the
version pattern in `s`, or `none` when the pattern does not match (Go
returns a nil slice). -/
def findVersionMatch : List Char → Option (List Char)
  | [] => none
  | c :: cs =>
    match matchVersionAt (c :: cs) with
    | some m => some m
    | none => findVersionMatch cs

/-- The characters matched by `.` in a Go regexp: any character except
newline.  A list satisfies `NoNewline` when `.*` can match it. -/
abbrev NoNewline (l : List Char) : Prop := ∀ c ∈ l, c ≠ '\n'

theorem noNewline_append {a b : List Char} (ha : NoNewline a) (hb : NoNewline b) :
    NoNewline (a ++ b) := by
  intro c hc
  rcases List.mem_append.mp hc with h | h
  · exact ha c h
  · exact hb c h

theorem noNewline_metaMarker : NoNewline metaMarker := by decide

theorem noNewline_metaTail : NoNewline metaTail := by decide

/-- A match of the metadata-hash regexp at the start of `s` is exactly a
decomposition of `s` into the marker, a newline-free middle, and the
trailing `0029`. -/
theorem hasMetaMatch_iff {s : List Char} :
    hasMetaMatch s = true ↔ ∃ mid, NoNewline mid ∧ s = metaMarker ++ mid ++ metaTail := by
  constructor
  · intro h
    simp only [hasMetaMatch, Bool.and_eq_true, decide_eq_true_eq, List.all_eq_true,
      bne_iff_ne, ne_eq] at h
    obtain ⟨⟨⟨hlen, htake⟩, hdropEq⟩, hall⟩ := h
    refine ⟨(s.drop 20).take (s.length - 24), hall, ?_⟩
    rw [List.append_assoc]
    conv_lhs => rw [← List.take_append_drop 20 s]
    rw [htake]
    congr 1
    conv_lhs => rw [← List.take_append_drop (s.length - 24) (s.drop 20)]
    congr 1
    rw [List.drop_drop]
    have heq24 : 20 + (s.length - 24) = s.length - 4 := by omega
    rw [heq24, hdropEq]
  · rintro ⟨mid, hmid, rfl⟩
    have hm20 : metaMarker.length = 20 := rfl
    have ht4 : metaTail.length = 4 := rfl
    have hlen : (metaMarker ++ mid ++ metaTail).length = 24 + mid.length := by
      simp only [List.length_append, hm20, ht4]
      omega
    simp only [hasMetaMatch, Bool.and_eq_true, decide_eq_true_eq, List.all_eq_true,
      bne_iff_ne, ne_eq]
    refine ⟨⟨⟨by omega, ?_⟩, ?_⟩, ?_⟩
    · rw [List.append_assoc, List.take_left' hm20]
    · have h1 : (metaMarker ++ mid ++ metaTail).length - 4 = (metaMarker ++ mid).length := by
        simp only [List.length_append, hm20, ht4]
        omega
      rw [h1, List.drop_left]
    · have h2 : (metaMarker ++ mid ++ metaTail).length - 24 = mid.length := by
        simp only [List.length_append, hm20, ht4]
        omega
      rw [h2, List.append_assoc, List.drop_left' hm20,
        List.take_left' (rfl : mid.length = mid.length)]
      exact hmid

/-- When the regexp matches at the start of the (nonempty) string, the
replacement truncates everything. -/
theorem strip_of_match {s : List Char} (h : hasMetaMatch s = true) :
    stripMetadataHash s = [] := by
  cases s with
  | nil => exact absurd h (by decide)
  | cons c cs => simp [stripMetadataHash, h]

/-- Either the regexp does not match anywhere in `s` and the replacement
is the identity, or `s` splits at the leftmost match and the replacement
keeps exactly the part before it. -/
theorem strip_decomp (s : List Char) :
    stripMetadataHash s = s ∨
      ∃ pre mid, NoNewline mid ∧ s = pre ++ metaMarker ++ mid ++ metaTail ∧
        stripMetadataHash s = pre := by
  induction s with
  | nil => exact Or.inl rfl
  | cons c cs ih =>
    by_cases h : hasMetaMatch (c :: cs) = true
    · obtain ⟨mid, hno, heq⟩ := hasMetaMatch_iff.mp h
      exact Or.inr ⟨[], mid, hno, by simpa using heq, strip_of_match h⟩
    · rcases ih with hid | ⟨pre, mid, hno, hcs, hstrip⟩
      · exact Or.inl (by simp [stripMetadataHash, h, hid])
      · refine Or.inr ⟨c :: pre, mid, hno, ?_, ?_⟩
        · simp [hcs, List.cons_append, List.append_assoc]
        · simp [stripMetadataHash, h, hstrip]

/-- Exchanging the newline-free middle of a trailing metadata-hash suffix
preserves matching of the regexp at the start of the extended string. -/
theorem hasMetaMatch_swap {q mid1 mid2 : List Char} (h2 : NoNewline mid2)
    (h : hasMetaMatch (q ++ metaMarker ++ mid1 ++ metaTail) = true) :
    hasMetaMatch (q ++ metaMarker ++ mid2 ++ metaTail) = true := by
  obtain ⟨MID, hM, heq⟩ := hasMetaMatch_iff.mp h
  have hm20 : metaMarker.length = 20 := rfl
  have happ : (q ++ metaMarker) ++ mid1 = metaMarker ++ MID :=
    List.append_cancel_right heq
  have hlenA : 20 ≤ (q ++ metaMarker).length := by
    rw [List.length_append, hm20]
    omega
  have htakeA : (q ++ metaMarker).take 20 = metaMarker := by
    have hc := congrArg (List.take 20) happ
    rwa [List.take_append_eq_append_take,
      show 20 - (q ++ metaMarker).length = 0 from by omega, List.take_zero,
      List.append_nil, List.take_left' hm20] at hc
  have hMID : (q ++ metaMarker).drop 20 ++ mid1 = MID := by
    have hc := congrArg (List.drop 20) happ
    rwa [List.drop_append_eq_append_drop,
      show 20 - (q ++ metaMarker).length = 0 from by omega, List.drop_zero,
      List.drop_left' hm20] at hc
  have hAno : NoNewline ((q ++ metaMarker).drop 20) := by
    intro ch hch
    exact hM ch (hMID ▸ List.mem_append_left mid1 hch)
  refine hasMetaMatch_iff.mpr ⟨(q ++ metaMarker).drop 20 ++ mid2,
    noNewline_append hAno h2, ?_⟩
  have hA : q ++ metaMarker = metaMarker ++ (q ++ metaMarker).drop 20 := by
    conv_lhs => rw [← List.take_append_drop 20 (q ++ metaMarker)]
    rw [htakeA]
  calc q ++ metaMarker ++ mid2 ++ metaTail
      = (q ++ metaMarker) ++ mid2 ++ metaTail := rfl
    _ = (metaMarker ++ (q ++ metaMarker).drop 20) ++ mid2 ++ metaTail := by rw [← hA]
    _ = metaMarker ++ ((q ++ metaMarker).drop 20 ++ mid2) ++ metaTail := by
        simp [List.append_assoc]

/-- If the regexp matches at the head of `c :: stripMetadataHash cs`, it
already matched at the head of `c :: cs`: stripping cannot create a new
leftmost match in front of the stripped region. -/
theorem hasMetaMatch_cons_strip {c : Char} {cs : List Char}
    (h : hasMetaMatch (c :: stripMetadataHash cs) = true) :
    hasMetaMatch (c :: cs) = true := by
  rcases strip_decomp cs with hid | ⟨pre, mid2, hno2, hcs, hstrip⟩
  · rwa [hid] at h
  · rw [hstrip] at h
    obtain ⟨MID, hM, heq⟩ := hasMetaMatch_iff.mp h
    refine hasMetaMatch_iff.mpr
      ⟨MID ++ metaTail ++ metaMarker ++ mid2,
        noNewline_append (noNewline_append (noNewline_append hM noNewline_metaTail)
          noNewline_metaMarker) hno2, ?_⟩
    have hcons : c :: cs = (c :: pre) ++ (metaMarker ++ (mid2 ++ metaTail)) := by
      simp [hcs, List.cons_append, List.append_assoc]
    rw [hcons, heq]
    simp [List.append_assoc]

/-- The replacement removes exactly the leftmost occurrence of the
pattern: when `pre` is the shortest prefix preceding a match, the result
is `pre`. -/
theorem strip_leftmost :
    ∀ pre mid : List Char, NoNewline mid →
      (∀ pre2 mid2, NoNewline mid2 →
        pre ++ metaMarker ++ mid ++ metaTail = pre2 ++ metaMarker ++ mid2 ++ metaTail →
        pre.length ≤ pre2.length) →
      stripMetadataHash (pre ++ metaMarker ++ mid ++ metaTail) = pre := by
  intro pre
  induction pre with
  | nil =>
    intro mid hno _
    exact strip_of_match (hasMetaMatch_iff.mpr ⟨mid, hno, by simp⟩)
  | cons c pre' ih =>
    intro mid hno hmin
    have hshape : (c :: pre') ++ metaMarker ++ mid ++ metaTail
        = c :: (pre' ++ metaMarker ++ mid ++ metaTail) := by
      simp [List.cons_append, List.append_assoc]
    have hnm : ¬ hasMetaMatch (c :: (pre' ++ metaMarker ++ mid ++ metaTail)) = true := by
      intro hm
      obtain ⟨MID, hMno, heqM⟩ := hasMetaMatch_iff.mp hm
      have hle := hmin [] MID hMno (by rw [hshape, heqM]; simp)
      simp at hle
    have hmin' : ∀ pre2 mid2, NoNewline mid2 →
        pre' ++ metaMarker ++ mid ++ metaTail = pre2 ++ metaMarker ++ mid2 ++ metaTail →
        pre'.length ≤ pre2.length := by
      intro pre2 mid2 hno2 heq2
      have hle := hmin (c :: pre2) mid2 hno2 (by
        rw [hshape, heq2]
        simp [List.cons_append, List.append_assoc])
      simpa using hle
    rw [hshape]
    simp only [stripMetadataHash, hnm, if_false, Bool.if_false_right]
    simp only [Bool.not_eq_true] at hnm
    rw [if_neg (by simp [hnm])]
    rw [ih mid hno hmin']

/-- Unfolds `VerifyContract` once the stored record is found, not yet
valid, the compile succeeded and the declared unit key is present. -/
theorem verify_unfold {env : VerifyEnv} {d c : Contract}
    {m : List (String × CompilationUnit)} {cu : CompilationUnit}
    (hstore : env.store d.address = some c) (hvalid : c.valid = false)
    (hcomp : env.compile d.sourceCode = .ok m)
    (hkey : m.lookup ("<stdin>:" ++ d.contractName) = some cu) :
    VerifyContract env d =
      if cu.runtimeCode = "" then (.err .emptyBytecode, [])
      else if cu.runtimeCode.data.length < 2 then (.panic, [])
      else if stripMetadataHash (cu.runtimeCode.data.drop 2)
          = stripMetadataHash c.bytecode.data then
        if env.update (verifiedUpdate c d cu env.now)
        then (.ok (verifiedUpdate c d cu env.now), [verifiedUpdate c d cu env.now])
        else (.err .persistenceFailed, [verifiedUpdate c d cu env.now])
      else (.err (.bytecodeMismatch d.address), []) := by
  simp only [VerifyContract, hstore, hvalid, hcomp, hkey, Bool.false_eq_true, if_false]

/-- Exhaustive case analysis of a `VerifyContract` run: exactly one of
the nine outcomes occurs, each together with the conditions that led
there and the full returned value. -/
theorem verify_cases (env : VerifyEnv) (d : Contract) :
    (env.store d.address = none ∧ VerifyContract env d = (.err .notFound, []))
    ∨ (∃ c, env.store d.address = some c ∧ c.valid = true ∧
        VerifyContract env d = (.err .alreadyVerified, []))
    ∨ (∃ c, env.store d.address = some c ∧ c.valid = false ∧
        (∃ e, env.compile d.sourceCode = .error e) ∧
        VerifyContract env d = (.err .compilationFailed, []))
    ∨ (∃ c m, env.store d.address = some c ∧ c.valid = false ∧
        env.compile d.sourceCode = .ok m ∧
        m.lookup ("<stdin>:" ++ d.contractName) = none ∧
        VerifyContract env d = (.err .unknownContractName, []))
    ∨ (∃ c m cu, env.store d.address = some c ∧ c.valid = false ∧
        env.compile d.sourceCode = .ok m ∧
        m.lookup ("<stdin>:" ++ d.contractName) = some cu ∧
        cu.runtimeCode = "" ∧
        VerifyContract env d = (.err .emptyBytecode, []))
    ∨ (∃ c m cu, env.store d.address = some c ∧ c.valid = false ∧
        env.compile d.sourceCode = .ok m ∧
        m.lookup ("<stdin>:" ++ d.contractName) = some cu ∧
        cu.runtimeCode ≠ "" ∧ cu.runtimeCode.data.length < 2 ∧
        VerifyContract env d = (.panic, []))
    ∨ (∃ c m cu, env.store d.address = some c ∧ c.valid = false ∧
        env.compile d.sourceCode = .ok m ∧
        m.lookup ("<stdin>:" ++ d.contractName) = some cu ∧
        2 ≤ cu.runtimeCode.data.length ∧
        stripMetadataHash (cu.runtimeCode.data.drop 2) ≠ stripMetadataHash c.bytecode.data ∧
        VerifyContract env d = (.err (.bytecodeMismatch d.address), []))
    ∨ (∃ c m cu, env.store d.address = some c ∧ c.valid = false ∧
        env.compile d.sourceCode = .ok m ∧
        m.lookup ("<stdin>:" ++ d.contractName) = some cu ∧
        2 ≤ cu.runtimeCode.data.length ∧
        stripMetadataHash (cu.runtimeCode.data.drop 2) = stripMetadataHash c.bytecode.data ∧
        env.update (verifiedUpdate c d cu env.now) = true ∧
        VerifyContract env d = (.ok (verifiedUpdate c d cu env.now),
          [verifiedUpdate c d cu env.now]))
    ∨ (∃ c m cu, env.store d.address = some c ∧ c.valid = false ∧
        env.compile d.sourceCode = .ok m ∧
        m.lookup ("<stdin>:" ++ d.contractName) = some cu ∧
        2 ≤ cu.runtimeCode.data.length ∧
        stripMetadataHash (cu.runtimeCode.data.drop 2) = stripMetadataHash c.bytecode.data ∧
        env.update (verifiedUpdate c d cu env.now) = false ∧
        VerifyContract env d = (.err .persistenceFailed,
          [verifiedUpdate c d cu env.now])) := by
  rcases hstore : env.store d.address with _ | c
  · exact Or.inl ⟨rfl, by simp [VerifyContract, hstore]⟩
  · cases hvalid : c.valid with
    | true =>
      exact Or.inr (Or.inl ⟨c, rfl, hvalid, by simp [VerifyContract, hstore, hvalid]⟩)
    | false =>
      rcases hcomp : env.compile d.sourceCode with e | m
      · refine Or.inr (Or.inr (Or.inl ⟨c, rfl, hvalid, ⟨e, rfl⟩, ?_⟩))
        simp [VerifyContract, hstore, hvalid, hcomp]
      · rcases hkey : m.lookup ("<stdin>:" ++ d.contractName) with _ | cu
        · refine Or.inr (Or.inr (Or.inr (Or.inl ⟨c, m, rfl, hvalid, rfl, hkey, ?_⟩)))
          simp [VerifyContract, hstore, hvalid, hcomp, hkey]
        · have hvu := verify_unfold hstore hvalid hcomp hkey
          by_cases hempty : cu.runtimeCode = ""
          · refine Or.inr (Or.inr (Or.inr (Or.inr (Or.inl
              ⟨c, m, cu, rfl, hvalid, rfl, hkey, hempty, ?_⟩))))
            rw [hvu, if_pos hempty]
          · by_cases hlt : cu.runtimeCode.data.length < 2
            · refine Or.inr (Or.inr (Or.inr (Or.inr (Or.inr (Or.inl
                ⟨c, m, cu, rfl, hvalid, rfl, hkey, hempty, hlt, ?_⟩)))))
              rw [hvu, if_neg hempty, if_pos hlt]
            · have hlen2 : 2 ≤ cu.runtimeCode.data.length := by omega
              by_cases hstrip : stripMetadataHash (cu.runtimeCode.data.drop 2)
                  = stripMetadataHash c.bytecode.data
              · cases hupd : env.update (verifiedUpdate c d cu env.now) with
                | true =>
                  refine Or.inr (Or.inr (Or.inr (Or.inr (Or.inr (Or.inr (Or.inr (Or.inl
                    ⟨c, m, cu, rfl, hvalid, rfl, hkey, hlen2, hstrip, hupd, ?_⟩)))))))
                  rw [hvu, if_neg hempty, if_neg hlt, if_pos hstrip, if_pos hupd]
                | false =>
                  refine Or.inr (Or.inr (Or.inr (Or.inr (Or.inr (Or.inr (Or.inr (Or.inr
                    ⟨c, m, cu, rfl, hvalid, rfl, hkey, hlen2, hstrip, hupd, ?_⟩)))))))
                  rw [hvu, if_neg hempty, if_neg hlt, if_pos hstrip,
                    if_neg (by simp [hupd])]
              · refine Or.inr (Or.inr (Or.inr (Or.inr (Or.inr (Or.inr (Or.inl
                  ⟨c, m, cu, rfl, hvalid, rfl, hkey, hlen2, hstrip, ?_⟩))))))
                rw [hvu, if_neg hempty, if_neg hlt, if_neg hstrip]

/-- A runtime code of length at least two is not the empty string. -/
theorem runtime_ne_empty {cu : CompilationUnit} (h : 2 ≤ cu.runtimeCode.data.length) :
    cu.runtimeCode ≠ "" := by
  intro he
  rw [he] at h
  exact absurd h (by decide)

/-- Shallow embedding of `Backend.GetCompilerVersion` (backend.go, lines
157-166).  The argument models the outcome of the external call
`compiler.SolidityVersion("solc")`.  When the version query succeeds the
source evaluates `longVersion[0]` without checking that
`FindStringSubmatch` found a match; on a nil result that index is a Go
runtime panic, modelled by the `panic` outcome. -/
def GetCompilerVersion (q : Except Unit SolidityVersionInfo) : VersionResult :=
  match q with
  | .error _ => .err "error occurred while processing"
  | .ok info =>
    match findVersionMatch info.fullVersion.data with
    | some m => .ok (String.mk m)
    | none => .panic

/-! Concrete data used by the closed witness and counterexample theorems. -/

/-- A stored, not-yet-verified record whose on-chain bytecode is `6001`. -/
def sampleStored : Contract :=
  ⟨"0xabc", "6001", false, false, "", "", "", 0⟩

/-- A compilation unit whose runtime code `0x6001` canonicalizes to `6001`. -/
def sampleUnit : CompilationUnit :=
  ⟨"0x6001", ⟨"contract Foo source", "0.4.24+commit.e67f0147"⟩⟩

/-- An environment in which verifying `sampleData` succeeds. -/
def sampleEnv : VerifyEnv :=
  ⟨fun a => if a = "0xabc" then some sampleStored else none,
   fun _ => .ok [("<stdin>:Foo", sampleUnit)],
   fun _ => true, 42⟩

/-- The submission matching `sampleStored`. -/
def sampleData : Contract :=
  ⟨"0xabc", "", false, false, "Foo", "contract Foo source", "", 0⟩

/-- A stored record whose bytecode `6002` differs from the compiled `6001`. -/
def mismatchStored : Contract :=
  ⟨"0xdef", "6002", false, false, "", "", "", 0⟩

/-- An environment in which verifying `mismatchData` hits the bytecode
comparison and fails. -/
def mismatchEnv : VerifyEnv :=
  ⟨fun a => if a = "0xdef" then some mismatchStored else none,
   fun _ => .ok [("<stdin>:Foo", sampleUnit)],
   fun _ => true, 7⟩

/-- The submission matching `mismatchStored`. -/
def mismatchData : Contract :=
  ⟨"0xdef", "", false, false, "Foo", "contract Foo source", "", 0⟩

/-- A stored record that is already verified. -/
def verifiedStored : Contract :=
  ⟨"0xaaa", "6001", true, false, "", "", "", 0⟩

/-- An environment holding only the already-verified record. -/
def verifiedEnv : VerifyEnv :=
  ⟨fun a => if a = "0xaaa" then some verifiedStored else none,
   fun _ => .error (), fun _ => false, 0⟩

/-- The submission for the already-verified record. -/
def verifiedData : Contract :=
  ⟨"0xaaa", "", false, false, "Foo", "contract Foo source", "", 0⟩

/-- An environment whose store holds no record at all. -/
def emptyStoreEnv : VerifyEnv :=
  ⟨fun _ => none, fun _ => .error (), fun _ => false, 0⟩

/-- A stored record whose bytecode canonicalizes to the empty string. -/
def shortStored : Contract :=
  ⟨"0xbad", "", false, false, "", "", "", 0⟩

/-- A compilation unit whose runtime code has length one: non-empty, yet
too short for the slice `RuntimeCode[2:]`. -/
def shortUnit : CompilationUnit :=
  ⟨"a", ⟨"contract Foo source", "0.4.24"⟩⟩

/-- An environment in which verifying `shortData` reaches the slice with a
length-one runtime code. -/
def shortEnv : VerifyEnv :=
  ⟨fun a => if a = "0xbad" then some shortStored else none,
   fun _ => .ok [("<stdin>:Foo", shortUnit)],
   fun _ => true, 5⟩

/-- The submission matching `shortStored`. -/
def shortData : Contract :=
  ⟨"0xbad", "", false, false, "Foo", "contract Foo source", "", 0⟩

/-! The claims. -/

/-- C1, counterexample to the claim as stated: every hypothesis of the
claim holds here — the stored record is found and not yet valid,
compilation succeeds, the unit keyed by the declared name exists with
non-empty runtime code (`"a"`, length one), the canonicalized compiled
runtime bytecode equals the canonicalized stored bytecode (both are
empty), and the store update would succeed — yet `VerifyContract` does
not return the updated record: it hits the out-of-range slice
`RuntimeCode[2:]`, a Go runtime panic. -/
theorem C1_counterexample :
    shortEnv.store shortData.address = some shortStored ∧
    shortStored.valid = false ∧
    shortEnv.compile shortData.sourceCode = .ok [("<stdin>:Foo", shortUnit)] ∧
    List.lookup ("<stdin>:" ++ shortData.contractName) [("<stdin>:Foo", shortUnit)]
      = some shortUnit ∧
    shortUnit.runtimeCode ≠ "" ∧
    stripMetadataHash (shortUnit.runtimeCode.data.drop 2)
      = stripMetadataHash shortStored.bytecode.data ∧
    shortEnv.update (verifiedUpdate shortStored shortData shortUnit shortEnv.now) = true ∧
    (VerifyContract shortEnv shortData).1
      ≠ .ok (verifiedUpdate shortStored shortData shortUnit shortEnv.now) ∧
    (VerifyContract shortEnv shortData).1 = .panic := by
  refine ⟨rfl, rfl, rfl, rfl, by decide, rfl, rfl, by decide, by decide⟩

/-- C1 (amended: the unit's runtime code must have length at least two,
not merely be non-empty — a length-one runtime code panics instead, see
the counterexample): for every stored record that is not yet valid, when
compilation succeeds, the unit keyed by the declared contract name exists
with runtime code of length at least two, the canonicalized compiled
runtime bytecode equals the canonicalized stored bytecode, and the store
update succeeds, `VerifyContract` returns the record updated with
`valid := true`, `optimization := true` (unconditionally, whether or not
the compile was optimized), the declared contract name, the
compiler-reported source code and compiler version, and `updatedAt` set
to the current time. -/
theorem C1_amended_success (env : VerifyEnv) (d c : Contract)
    (m : List (String × CompilationUnit)) (cu : CompilationUnit)
    (hstore : env.store d.address = some c) (hvalid : c.valid = false)
    (hcomp : env.compile d.sourceCode = .ok m)
    (hkey : m.lookup ("<stdin>:" ++ d.contractName) = some cu)
    (hlen : 2 ≤ cu.runtimeCode.data.length)
    (heq : stripMetadataHash (cu.runtimeCode.data.drop 2)
      = stripMetadataHash c.bytecode.data)
    (hupd : env.update (verifiedUpdate c d cu env.now) = true) :
    (VerifyContract env d).1 = .ok (verifiedUpdate c d cu env.now) := by
  rw [verify_unfold hstore hvalid hcomp hkey, if_neg (runtime_ne_empty hlen),
    if_neg (by omega), if_pos heq, if_pos hupd]

/-- Witness for C1 at concrete inputs: verifying `sampleData` against
`sampleStored` succeeds and returns the fully updated record. -/
theorem C1_amended_success_witness :
    (VerifyContract sampleEnv sampleData).1
      = .ok (verifiedUpdate sampleStored sampleData sampleUnit 42) :=
  C1_amended_success sampleEnv sampleData sampleStored [("<stdin>:Foo", sampleUnit)]
    sampleUnit rfl rfl rfl rfl (by decide) (by decide) rfl

/-- C2: the canonicalization of `VerifyContract`.  First conjunct: a
string not containing the pattern (the literal marker followed by
characters matched by the regexp dot — any character except newline — up
to and including a trailing `0029` at the end of the string) is left
unchanged.  Second conjunct: when the pattern occurs, the leftmost
occurrence and everything after it is removed.  Third conjunct: the first
two characters are dropped from the compiled runtime code only, both
sides are stripped, and the comparison deciding between the success path
and `BytecodeMismatch` is exact equality of the two canonicalized
strings. -/
theorem C2_canonicalization :
    (∀ s : List Char,
      (¬ ∃ pre mid, NoNewline mid ∧ s = pre ++ metaMarker ++ mid ++ metaTail) →
      stripMetadataHash s = s)
    ∧ (∀ pre mid, NoNewline mid →
        (∀ pre2 mid2, NoNewline mid2 →
          pre ++ metaMarker ++ mid ++ metaTail = pre2 ++ metaMarker ++ mid2 ++ metaTail →
          pre.length ≤ pre2.length) →
        stripMetadataHash (pre ++ metaMarker ++ mid ++ metaTail) = pre)
    ∧ (∀ env d c m cu, env.store d.address = some c → c.valid = false →
        env.compile d.sourceCode = .ok m →
        m.lookup ("<stdin>:" ++ d.contractName) = some cu →
        2 ≤ cu.runtimeCode.data.length →
        ((VerifyContract env d).1 = .err (.bytecodeMismatch d.address) ↔
          stripMetadataHash (cu.runtimeCode.data.drop 2)
            ≠ stripMetadataHash c.bytecode.data)) := by
  refine ⟨?_, strip_leftmost, ?_⟩
  · intro s h
    rcases strip_decomp s with h1 | ⟨pre, mid, hno, hs, _⟩
    · exact h1
    · exact absurd ⟨pre, mid, hno, hs⟩ h
  · intro env d c m cu hstore hvalid hcomp hkey hlen
    rw [verify_unfold hstore hvalid hcomp hkey, if_neg (runtime_ne_empty hlen),
      if_neg (by omega)]
    by_cases heq : stripMetadataHash (cu.runtimeCode.data.drop 2)
        = stripMetadataHash c.bytecode.data
    · rw [if_pos heq]
      constructor
      · intro hres
        by_cases hupd : env.update (verifiedUpdate c d cu env.now) = true
        · rw [if_pos hupd] at hres
          simp at hres
        · rw [if_neg hupd] at hres
          simp at hres
      · intro hne
        exact absurd heq hne
    · rw [if_neg heq]
      simp [heq]

/-- Witness for C2 at concrete inputs: compiled `6001` against stored
`6002` is reported as a bytecode mismatch carrying the address. -/
theorem C2_canonicalization_witness :
    (VerifyContract mismatchEnv mismatchData).1 = .err (.bytecodeMismatch "0xdef") :=
  (C2_canonicalization.2.2 mismatchEnv mismatchData mismatchStored
    [("<stdin>:Foo", sampleUnit)] sampleUnit rfl rfl rfl rfl (by decide)).mpr
    (by decide)

/-- C6: the metadata-hash stripping step is idempotent — stripping twice
yields the same result as stripping once, for every string. -/
theorem C6_strip_idempotent (s : List Char) :
    stripMetadataHash (stripMetadataHash s) = stripMetadataHash s := by
  induction s with
  | nil => rfl
  | cons c cs ih =>
    by_cases h : hasMetaMatch (c :: cs) = true
    · rw [strip_of_match h]
      rfl
    · have h2 : ¬ hasMetaMatch (c :: stripMetadataHash cs) = true :=
        fun hm => h (hasMetaMatch_cons_strip hm)
      rw [show stripMetadataHash (c :: cs) = c :: stripMetadataHash cs from by
        simp only [stripMetadataHash, if_neg h]]
      rw [show stripMetadataHash (c :: stripMetadataHash cs)
          = c :: stripMetadataHash (stripMetadataHash cs) from by
        simp only [stripMetadataHash, if_neg h2]]
      rw [ih]

/-- C7: for every common prefix and every pair of trailing metadata-hash
suffixes — each the literal marker, then characters matched by the
regexp dot (any character except newline), ending in `0029` —
canonicalization maps the two concatenations to equal strings. -/
theorem C7_strip_suffix_equal (p mid1 mid2 : List Char)
    (h1 : NoNewline mid1) (h2 : NoNewline mid2) :
    stripMetadataHash (p ++ metaMarker ++ mid1 ++ metaTail)
      = stripMetadataHash (p ++ metaMarker ++ mid2 ++ metaTail) := by
  induction p with
  | nil =>
    rw [strip_of_match (hasMetaMatch_iff.mpr ⟨mid1, h1, by simp⟩),
      strip_of_match (hasMetaMatch_iff.mpr ⟨mid2, h2, by simp⟩)]
  | cons c p' ih =>
    have hshape1 : (c :: p') ++ metaMarker ++ mid1 ++ metaTail
        = c :: (p' ++ metaMarker ++ mid1 ++ metaTail) := by
      simp [List.cons_append, List.append_assoc]
    have hshape2 : (c :: p') ++ metaMarker ++ mid2 ++ metaTail
        = c :: (p' ++ metaMarker ++ mid2 ++ metaTail) := by
      simp [List.cons_append, List.append_assoc]
    rw [hshape1, hshape2]
    by_cases hm : hasMetaMatch (c :: (p' ++ metaMarker ++ mid1 ++ metaTail)) = true
    · have hma : hasMetaMatch ((c :: p') ++ metaMarker ++ mid1 ++ metaTail) = true := by
        rw [hshape1]
        exact hm
      have hmb := hasMetaMatch_swap h2 hma
      rw [hshape2] at hmb
      rw [strip_of_match hm, strip_of_match hmb]
    · have hmb : ¬ hasMetaMatch (c :: (p' ++ metaMarker ++ mid2 ++ metaTail)) = true := by
        intro hc
        apply hm
        have hmb2 := hasMetaMatch_swap h1 (show
          hasMetaMatch ((c :: p') ++ metaMarker ++ mid2 ++ metaTail) = true from by
            rw [hshape2]; exact hc)
        rw [hshape1] at hmb2
        exact hmb2
      rw [show stripMetadataHash (c :: (p' ++ metaMarker ++ mid1 ++ metaTail))
          = c :: stripMetadataHash (p' ++ metaMarker ++ mid1 ++ metaTail) from by
        simp only [stripMetadataHash, if_neg hm]]
      rw [show stripMetadataHash (c :: (p' ++ metaMarker ++ mid2 ++ metaTail))
          = c :: stripMetadataHash (p' ++ metaMarker ++ mid2 ++ metaTail) from by
        simp only [stripMetadataHash, if_neg hmb]]
      rw [ih]

/-- Witness for C7 at concrete inputs: prefix `60` with middles `ab` and
the empty string canonicalize to the same result. -/
theorem C7_strip_suffix_equal_witness :
    stripMetadataHash ("60".data ++ metaMarker ++ "ab".data ++ metaTail)
      = stripMetadataHash ("60".data ++ metaMarker ++ "".data ++ metaTail) :=
  C7_strip_suffix_equal "60".data "ab".data "".data (by decide) (by decide)

/-- C3: verification is write-once.  First conjunct: for every stored
record with `valid = true`, `VerifyContract` fails with `AlreadyVerified`
(and performs no write), regardless of the submitted source code and
contract name.  Second and third conjuncts: every record this flow hands
to the store, and every record it returns, has `valid = true` — the flow
never writes `valid = false`, so it never reverts a verified record. -/
theorem C3_write_once :
    (∀ env d c, env.store d.address = some c → c.valid = true →
      VerifyContract env d = (.err .alreadyVerified, []))
    ∧ (∀ env d, ∀ w ∈ (VerifyContract env d).2, w.valid = true)
    ∧ (∀ env d r, (VerifyContract env d).1 = .ok r → r.valid = true) := by
  refine ⟨?_, ?_, ?_⟩
  · intro env d c hstore hvalid
    simp [VerifyContract, hstore, hvalid]
  · intro env d w hw
    rcases verify_cases env d with ⟨_, hV⟩ | ⟨c, _, _, hV⟩ | ⟨c, _, _, _, hV⟩ |
      ⟨c, m, _, _, _, _, hV⟩ | ⟨c, m, cu, _, _, _, _, _, hV⟩ |
      ⟨c, m, cu, _, _, _, _, _, _, hV⟩ | ⟨c, m, cu, _, _, _, _, _, _, hV⟩ |
      ⟨c, m, cu, _, _, _, _, _, _, _, hV⟩ | ⟨c, m, cu, _, _, _, _, _, _, _, hV⟩ <;>
      rw [hV] at hw <;> simp_all [verifiedUpdate]
  · intro env d r h
    rcases verify_cases env d with ⟨_, hV⟩ | ⟨c, _, _, hV⟩ | ⟨c, _, _, _, hV⟩ |
      ⟨c, m, _, _, _, _, hV⟩ | ⟨c, m, cu, _, _, _, _, _, hV⟩ |
      ⟨c, m, cu, _, _, _, _, _, _, hV⟩ | ⟨c, m, cu, _, _, _, _, _, _, hV⟩ |
      ⟨c, m, cu, _, _, _, _, _, _, _, hV⟩ | ⟨c, m, cu, _, _, _, _, _, _, _, hV⟩
    · rw [hV] at h; simp at h
    · rw [hV] at h; simp at h
    · rw [hV] at h; simp at h
    · rw [hV] at h; simp at h
    · rw [hV] at h; simp at h
    · rw [hV] at h; simp at h
    · rw [hV] at h; simp at h
    · rw [hV] at h
      simp only [VerifyResult.ok.injEq] at h
      subst h
      simp [verifiedUpdate]
    · rw [hV] at h; simp at h

/-- Witness for C3 at concrete inputs: the already-verified record is
rejected with `AlreadyVerified` and no write happens. -/
theorem C3_write_once_witness :
    VerifyContract verifiedEnv verifiedData = (.err .alreadyVerified, []) :=
  C3_write_once.1 verifiedEnv verifiedData verifiedStored rfl rfl

/-- C4: at most one store mutation per call, only on the success path.
First conjunct: never more than one `updateContract` call.  Second
conjunct: on every error outcome other than `PersistenceFailed` no update
is attempted at all.  Third conjunct: `PersistenceFailed` is exactly the
case where the single attempted update was rejected by the store (which
then leaves the record unchanged).  Fourth conjunct: on success the
single accepted write is the returned record, carrying all updated fields
together, derived in one step from the stored record, the submission, the
compilation unit and the clock — never a partial subset. -/
theorem C4_single_mutation :
    (∀ env d, (VerifyContract env d).2.length ≤ 1)
    ∧ (∀ env d e, (VerifyContract env d).1 = .err e → e ≠ .persistenceFailed →
        (VerifyContract env d).2 = [])
    ∧ (∀ env d, (VerifyContract env d).1 = .err .persistenceFailed →
        ∃ w, (VerifyContract env d).2 = [w] ∧ env.update w = false)
    ∧ (∀ env d r, (VerifyContract env d).1 = .ok r →
        (VerifyContract env d).2 = [r] ∧ env.update r = true ∧
        ∃ c m cu, env.store d.address = some c ∧ c.valid = false ∧
          env.compile d.sourceCode = .ok m ∧
          m.lookup ("<stdin>:" ++ d.contractName) = some cu ∧
          r = verifiedUpdate c d cu env.now) := by
  refine ⟨?_, ?_, ?_, ?_⟩
  · intro env d
    rcases verify_cases env d with ⟨_, hV⟩ | ⟨c, _, _, hV⟩ | ⟨c, _, _, _, hV⟩ |
      ⟨c, m, _, _, _, _, hV⟩ | ⟨c, m, cu, _, _, _, _, _, hV⟩ |
      ⟨c, m, cu, _, _, _, _, _, _, hV⟩ | ⟨c, m, cu, _, _, _, _, _, _, hV⟩ |
      ⟨c, m, cu, _, _, _, _, _, _, _, hV⟩ | ⟨c, m, cu, _, _, _, _, _, _, _, hV⟩ <;>
      rw [hV] <;> simp
  · intro env d e h hne
    rcases verify_cases env d with ⟨_, hV⟩ | ⟨c, _, _, hV⟩ | ⟨c, _, _, _, hV⟩ |
      ⟨c, m, _, _, _, _, hV⟩ | ⟨c, m, cu, _, _, _, _, _, hV⟩ |
      ⟨c, m, cu, _, _, _, _, _, _, hV⟩ | ⟨c, m, cu, _, _, _, _, _, _, hV⟩ |
      ⟨c, m, cu, _, _, _, _, _, _, _, hV⟩ | ⟨c, m, cu, _, _, _, _, _, _, _, hV⟩ <;>
      rw [hV] at h ⊢ <;> simp_all
  · intro env d h
    rcases verify_cases env d with ⟨_, hV⟩ | ⟨c, _, _, hV⟩ | ⟨c, _, _, _, hV⟩ |
      ⟨c, m, _, _, _, _, hV⟩ | ⟨c, m, cu, _, _, _, _, _, hV⟩ |
      ⟨c, m, cu, _, _, _, _, _, _, hV⟩ | ⟨c, m, cu, _, _, _, _, _, _, hV⟩ |
      ⟨c, m, cu, _, _, _, _, _, _, _, hV⟩ | ⟨c, m, cu, _, _, _, _, _, _, hupd, hV⟩
    · rw [hV] at h; simp at h
    · rw [hV] at h; simp at h
    · rw [hV] at h; simp at h
    · rw [hV] at h; simp at h
    · rw [hV] at h; simp at h
    · rw [hV] at h; simp at h
    · rw [hV] at h; simp at h
    · rw [hV] at h; simp at h
    · exact ⟨verifiedUpdate c d cu env.now, by rw [hV], hupd⟩
  · intro env d r h
    rcases verify_cases env d with ⟨_, hV⟩ | ⟨c, _, _, hV⟩ | ⟨c, _, _, _, hV⟩ |
      ⟨c, m, _, _, _, _, hV⟩ | ⟨c, m, cu, _, _, _, _, _, hV⟩ |
      ⟨c, m, cu, _, _, _, _, _, _, hV⟩ | ⟨c, m, cu, _, _, _, _, _, _, hV⟩ |
      ⟨c, m, cu, hs, hval, hcomp, hkey, _, _, hupd, hV⟩ |
      ⟨c, m, cu, _, _, _, _, _, _, _, hV⟩
    · rw [hV] at h; simp at h
    · rw [hV] at h; simp at h
    · rw [hV] at h; simp at h
    · rw [hV] at h; simp at h
    · rw [hV] at h; simp at h
    · rw [hV] at h; simp at h
    · rw [hV] at h; simp at h
    · rw [hV] at h
      simp only [VerifyResult.ok.injEq] at h
      subst h
      exact ⟨by rw [hV], hupd, c, m, cu, hs, hval, hcomp, hkey, rfl⟩
    · rw [hV] at h; simp at h

/-- Witness for C4 at concrete inputs: the `AlreadyVerified` failure
leaves the write log empty. -/
theorem C4_single_mutation_witness :
    (VerifyContract verifiedEnv verifiedData).2 = [] :=
  C4_single_mutation.2.1 verifiedEnv verifiedData .alreadyVerified (by decide)
    (by decide)

/-- C5: the failure conditions are checked in a fixed order and the
earliest applicable error is returned: `NotFound` when the store has no
record for the address — stated for every environment, in particular for
every compiler, so the result never depends on the compiler there — then
`AlreadyVerified`, then `CompilationFailed` when the compiler invocation
errors, then `UnknownContractName` when the key built from the fixed
marker `<stdin>:` and the declared name is absent, then `EmptyBytecode`
when that unit's runtime code is the empty string. -/
theorem C5_error_order :
    (∀ env d, env.store d.address = none →
      VerifyContract env d = (.err .notFound, []))
    ∧ (∀ env d c, env.store d.address = some c → c.valid = true →
        VerifyContract env d = (.err .alreadyVerified, []))
    ∧ (∀ env d c e, env.store d.address = some c → c.valid = false →
        env.compile d.sourceCode = .error e →
        VerifyContract env d = (.err .compilationFailed, []))
    ∧ (∀ env d c m, env.store d.address = some c → c.valid = false →
        env.compile d.sourceCode = .ok m →
        m.lookup ("<stdin>:" ++ d.contractName) = none →
        VerifyContract env d = (.err .unknownContractName, []))
    ∧ (∀ env d c m cu, env.store d.address = some c → c.valid = false →
        env.compile d.sourceCode = .ok m →
        m.lookup ("<stdin>:" ++ d.contractName) = some cu →
        cu.runtimeCode = "" →
        VerifyContract env d = (.err .emptyBytecode, [])) := by
  refine ⟨?_, ?_, ?_, ?_, ?_⟩
  · intro env d hstore
    simp [VerifyContract, hstore]
  · intro env d c hstore hvalid
    simp [VerifyContract, hstore, hvalid]
  · intro env d c e hstore hvalid hcomp
    simp [VerifyContract, hstore, hvalid, hcomp]
  · intro env d c m hstore hvalid hcomp hkey
    simp [VerifyContract, hstore, hvalid, hcomp, hkey]
  · intro env d c m cu hstore hvalid hcomp hkey hempty
    rw [verify_unfold hstore hvalid hcomp hkey, if_pos hempty]

/-- Witness for C5 at concrete inputs: an address absent from the store is
rejected with `NotFound` even though this environment's compiler always
errors. -/
theorem C5_error_order_witness :
    VerifyContract emptyStoreEnv verifiedData = (.err .notFound, []) :=
  C5_error_order.1 emptyStoreEnv verifiedData rfl

/-- C8: whenever the canonicalized compiled bytecode differs from the
canonicalized stored bytecode (the comparison being reached), the call
fails with a `BytecodeMismatch` error, and that error's message contains
the submitted contract address as a substring. -/
theorem C8_mismatch_address (env : VerifyEnv) (d c : Contract)
    (m : List (String × CompilationUnit)) (cu : CompilationUnit)
    (hstore : env.store d.address = some c) (hvalid : c.valid = false)
    (hcomp : env.compile d.sourceCode = .ok m)
    (hkey : m.lookup ("<stdin>:" ++ d.contractName) = some cu)
    (hlen : 2 ≤ cu.runtimeCode.data.length)
    (hne : stripMetadataHash (cu.runtimeCode.data.drop 2)
      ≠ stripMetadataHash c.bytecode.data) :
    (VerifyContract env d).1 = .err (.bytecodeMismatch d.address) ∧
    ∃ before after,
      (VerifyError.bytecodeMismatch d.address).message = before ++ d.address ++ after := by
  constructor
  · rw [verify_unfold hstore hvalid hcomp hkey, if_neg (runtime_ne_empty hlen),
      if_neg (by omega), if_neg hne]
  · refine ⟨"the compiled result does not match the input creation bytecode located at ",
      "", ?_⟩
    simp [VerifyError.message]

/-- Witness for C8 at concrete inputs: stored `6002` against compiled
`6001` fails with `BytecodeMismatch` embedding the address `0xdef`. -/
theorem C8_mismatch_address_witness :
    (VerifyContract mismatchEnv mismatchData).1 = .err (.bytecodeMismatch "0xdef") ∧
    ∃ before after,
      (VerifyError.bytecodeMismatch "0xdef").message = before ++ "0xdef" ++ after :=
  C8_mismatch_address mismatchEnv mismatchData mismatchStored
    [("<stdin>:Foo", sampleUnit)] sampleUnit rfl rfl rfl rfl (by decide) (by decide)

/-- C9, evaluation at the failing input: when the version query errors the
source returns the error value (the first conjunct), but on a successful
query whose full-version string does not match the semantic-version
pattern, `FindStringSubmatch` returns a nil slice and `longVersion[0]`
is a Go runtime panic — not a `VersionParseFailed` error value (the
second conjunct).  The third conjunct shows the extraction on a matching
full-version string for contrast. -/
theorem C9_version_panic_eval :
    GetCompilerVersion (.error ()) = .err "error occurred while processing" ∧
    GetCompilerVersion (.ok ⟨"unknown"⟩) = .panic ∧
    GetCompilerVersion (.ok ⟨"solidity 0.5.1+commit.c8a2cb62.Linux"⟩)
      = .ok "0.5.1+commit.c8a2cb62" := by
  refine ⟨rfl, by decide, by decide⟩

/-- C10: the empty-bytecode guard rejects exactly the empty runtime code,
and the prefix removal drops the first two characters unconditionally.
First conjunct: the empty runtime code fails with `EmptyBytecode`.
Second conjunct: a runtime code of length one passes the guard and the
slice `RuntimeCode[2:]` is out of range — a Go runtime panic, not an
error return.  Third conjunct: a runtime code of length at least two is
neither rejected by the guard nor a panic, and the comparison is made on
the runtime code with its first two characters removed — whatever they
are, `0x` or not (the witness uses one that does not start with `0x`). -/
theorem C10_slice_behavior :
    (∀ env d c m cu, env.store d.address = some c → c.valid = false →
      env.compile d.sourceCode = .ok m →
      m.lookup ("<stdin>:" ++ d.contractName) = some cu →
      cu.runtimeCode = "" →
      VerifyContract env d = (.err .emptyBytecode, []))
    ∧ (∀ env d c m cu, env.store d.address = some c → c.valid = false →
        env.compile d.sourceCode = .ok m →
        m.lookup ("<stdin>:" ++ d.contractName) = some cu →
        cu.runtimeCode.data.length = 1 →
        VerifyContract env d = (.panic, []))
    ∧ (∀ env d c m cu, env.store d.address = some c → c.valid = false →
        env.compile d.sourceCode = .ok m →
        m.lookup ("<stdin>:" ++ d.contractName) = some cu →
        2 ≤ cu.runtimeCode.data.length →
        (VerifyContract env d).1 ≠ .err .emptyBytecode ∧
        (VerifyContract env d).1 ≠ .panic ∧
        ((VerifyContract env d).1 = .err (.bytecodeMismatch d.address) ↔
          stripMetadataHash (cu.runtimeCode.data.drop 2)
            ≠ stripMetadataHash c.bytecode.data)) := by
  refine ⟨?_, ?_, ?_⟩
  · intro env d c m cu hstore hvalid hcomp hkey hempty
    rw [verify_unfold hstore hvalid hcomp hkey, if_pos hempty]
  · intro env d c m cu hstore hvalid hcomp hkey hone
    have hne : cu.runtimeCode ≠ "" := by
      intro he
      rw [he] at hone
      exact absurd hone (by decide)
    rw [verify_unfold hstore hvalid hcomp hkey, if_neg hne, if_pos (by omega)]
  · intro env d c m cu hstore hvalid hcomp hkey hlen
    rw [verify_unfold hstore hvalid hcomp hkey, if_neg (runtime_ne_empty hlen),
      if_neg (by omega)]
    by_cases hstrip : stripMetadataHash (cu.runtimeCode.data.drop 2)
        = stripMetadataHash c.bytecode.data
    · rw [if_pos hstrip]
      by_cases hupd : env.update (verifiedUpdate c d cu env.now) = true
      · rw [if_pos hupd]
        exact ⟨by simp, by simp, by simp [hstrip]⟩
      · rw [if_neg hupd]
        exact ⟨by simp, by simp, by simp [hstrip]⟩
    · rw [if_neg hstrip]
      exact ⟨by simp, by simp, by simp [hstrip]⟩

/-- Witness for C10 at concrete inputs: the length-one runtime code `a`
(non-empty, not starting with `0x`) drives `VerifyContract` into the
panic outcome. -/
theorem C10_slice_behavior_witness :
    VerifyContract shortEnv shortData = (.panic, []) :=
  C10_slice_behavior.2.1 shortEnv shortData shortStored [("<stdin>:Foo", shortUnit)]
    shortUnit rfl rfl rfl rfl (by decide)

end Explorer
